import Mathlib

/-!
# Verification of the giga-arena allocator

Shallow embedding of the arena allocator in `src/main.c` (and its public
header `src/include/giga/arena.h`).

Modelling conventions:
* Addresses and byte counts are `Nat`.  `size_t` arithmetic is 64-bit, so
  every `size_t` operation that can wrap is taken modulo `2 ^ 64`; the C
  bitwise complement `~` on `size_t` is xor with the all-ones word.
* Pointer arithmetic (`cursor + size`, `next - commit`) is exact: the code
  never relies on pointer wrap-around (which C leaves undefined).
* The OS is an oracle: `os_reserve` answers with `Option Nat` (the address,
  or `none` on failure) and `os_commit` with a `Bool`.  Every OS call the
  allocator issues is recorded in an event trace.
-/

namespace GigaArena

/-- Width of `size_t`: the model fixes a 64-bit machine, `W = 2 ^ 64`. -/
def W : Nat := 2 ^ 64

lemma W_eq : W = 18446744073709551616 := by norm_num [W]

/-- `align_up` from `src/main.c`: `(x + (a - 1)) & ~(a - 1)` computed in
`size_t` arithmetic.  `a - 1` is `(a + (W - 1)) % W` (the unsigned
decrement), the addition is reduced mod `W`, and `~m` is `(W - 1) ^^^ m`. -/
def align_up (x a : Nat) : Nat :=
  ((x + (a + (W - 1)) % W) % W) &&& ((W - 1) ^^^ ((a + (W - 1)) % W))

/-- The `Arena` struct of `src/main.c`. -/
structure Arena where
  base : Nat
  cursor : Nat
  commit : Nat
  limit : Nat
  reserve_size : Nat
  commit_step : Nat
deriving DecidableEq

/-- OS virtual-memory calls, in the order the allocator issues them. -/
inductive OsEvent where
  | reserve (total : Nat)
  | guard (addr len : Nat)
  | commit (addr len : Nat)
deriving DecidableEq

/-- `arena_init` from `src/main.c`.  `page` is the OS page size and `mem`
is the answer of `os_reserve` (`none` = reservation failure).  Returns the
arena (the untouched `a0` on failure), the success flag, and the trace of
OS calls.  `ARENA_GUARD_PAGES` is `1`, so `guard = page`. -/
def arena_init (a0 : Arena) (page : Nat) (mem : Option Nat)
    (reserve_size commit_step : Nat) : Arena × Bool × List OsEvent :=
  let rs := align_up reserve_size page
  let cs := align_up commit_step page
  let total := rs + page * 2
  match mem with
  | none => (a0, false, [OsEvent.reserve total])
  | some m =>
    ({ base := m + page, cursor := m + page, commit := m + page,
       limit := m + page + rs, reserve_size := rs, commit_step := cs },
     true,
     [OsEvent.reserve total, OsEvent.guard m page,
      OsEvent.guard (m + page + rs) page])

/-- `arena_reset` from `src/main.c`: rewind the cursor, touch nothing else. -/
def arena_reset (a : Arena) : Arena := { a with cursor := a.base }

/-- `arena_alloc` from `src/main.c`.  `commitOk` is the answer the OS gives
to the `os_commit` call, if one is made.  Returns the allocated address
(`none` on failure), the resulting arena, and the trace of OS calls. -/
def arena_alloc (commitOk : Bool) (a : Arena) (size : Nat) :
    Option Nat × Arena × List OsEvent :=
  let n := align_up size 8
  let next := a.cursor + n
  if a.limit < next then (none, a, [])
  else if a.commit < next then
    let need := align_up (next - a.commit) a.commit_step
    if commitOk then
      (some a.cursor, { a with commit := a.commit + need, cursor := next },
       [OsEvent.commit a.commit need])
    else (none, a, [OsEvent.commit a.commit need])
  else (some a.cursor, { a with cursor := next }, [])

/-- Run a sequence of `arena_alloc` calls: each entry pairs the requested
size with the OS answer for any commit call made during that allocation.
Produces `some (ps, a')` when every call succeeds, `ps` listing the
returned addresses in order. -/
def allocSeq : Arena → List (Nat × Bool) → Option (List Nat × Arena)
  | a, [] => some ([], a)
  | a, (s, ok) :: rest =>
    match arena_alloc ok a s with
    | (some p, a', _) => (allocSeq a' rest).map (fun r => (p :: r.1, r.2))
    | (none, _, _) => none

/-- The ordering invariant of spec §3: `base ≤ cursor ≤ commit ≤ limit`. -/
def Inv (a : Arena) : Prop :=
  a.base ≤ a.cursor ∧ a.cursor ≤ a.commit ∧ a.commit ≤ a.limit

instance (a : Arena) : Decidable (Inv a) := by unfold Inv; infer_instance

/-! ## Arithmetic characterisation of `align_up` -/

lemma amask_eq (a : Nat) (h1 : 0 < a) (h2 : a ≤ W) :
    (a + (W - 1)) % W = a - 1 := by
  have hW : 0 < W := by rw [W_eq]; omega
  have h3 : a + (W - 1) = W + (a - 1) := by omega
  rw [h3, Nat.add_mod_left, Nat.mod_eq_of_lt (by omega)]

/-- Bits `k..63` of `y`: masking with the 64-bit complement of `2^k - 1`
rounds `y` down to a multiple of `2 ^ k`. -/
lemma land_compl_pow2 (y k : Nat) (hy : y < W) (hk : k ≤ 64) :
    y &&& ((W - 1) ^^^ (2 ^ k - 1)) = 2 ^ k * (y / 2 ^ k) := by
  apply Nat.eq_of_testBit_eq
  intro i
  rw [Nat.testBit_and, Nat.testBit_xor, W]
  rw [Nat.testBit_two_pow_sub_one, Nat.testBit_two_pow_sub_one,
    Nat.testBit_mul_pow_two, ← Nat.shiftRight_eq_div_pow,
    Nat.testBit_shiftRight]
  rcases Nat.lt_or_ge i 64 with hi | hi
  · rcases Nat.lt_or_ge i k with hik | hik
    · simp [hik, Nat.not_le_of_lt hik, Nat.lt_of_lt_of_le hik hk]
    · have : k + (i - k) = i := by omega
      simp [hik, Nat.not_lt_of_le hik, hi, this]
  · have hy' : y < 2 ^ 64 := by simpa [W] using hy
    have hyi : y.testBit i = false := by
      apply Nat.testBit_lt_two_pow
      exact Nat.lt_of_lt_of_le hy' (Nat.pow_le_pow_right (by omega) hi)
    have : k + (i - k) = i := by omega
    simp [hyi, Nat.not_lt_of_le hi, this, Nat.not_lt_of_le (Nat.le_trans hk hi)]

/-- For a power-of-two alignment, and in the absence of `size_t` overflow,
`align_up` is the usual round-up `2^k * ⌈x / 2^k⌉`. -/
lemma align_up_pow2 (x k : Nat) (hk : k ≤ 64) (hx : x + 2 ^ k - 1 < W) :
    align_up x (2 ^ k) = 2 ^ k * ((x + 2 ^ k - 1) / 2 ^ k) := by
  have hp : 0 < 2 ^ k := Nat.pos_pow_of_pos k (by omega)
  have hle : 2 ^ k ≤ W := by
    have := Nat.pow_le_pow_right (show 0 < 2 by omega) hk
    simpa [W] using this
  have hm := amask_eq (2 ^ k) hp hle
  unfold align_up
  rw [hm]
  have h1 : x + (2 ^ k - 1) = x + 2 ^ k - 1 := by omega
  rw [h1, Nat.mod_eq_of_lt hx]
  exact land_compl_pow2 _ k hx hk

/-- Round-up to a positive granularity `s` never shrinks the input. -/
lemma roundup_ge (s x : Nat) (hs : 0 < s) : x ≤ s * ((x + s - 1) / s) := by
  have h1 := Nat.div_add_mod (x + s - 1) s
  have h2 : (x + s - 1) % s < s := Nat.mod_lt _ hs
  generalize s * ((x + s - 1) / s) = t at h1 ⊢
  omega

/-- Round-up to `s` stays below any multiple of `s` that bounds the input. -/
lemma roundup_le_mul (s x q : Nat) (hs : 0 < s) (hxm : x ≤ s * q) :
    s * ((x + s - 1) / s) ≤ s * q := by
  have h2 : (x + s - 1) / s ≤ q := by
    have h1 : x + s - 1 ≤ s * q + (s - 1) := by omega
    have h4 := Nat.div_le_div_right (c := s) h1
    have h5 : (s - 1) / s = 0 := Nat.div_eq_of_lt (by omega)
    rw [Nat.mul_add_div hs, h5] at h4
    omega
  exact Nat.mul_le_mul_left s h2

/-- Round-up to `s` overshoots by less than `s`. -/
lemma roundup_lt (s x : Nat) (hs : 0 < s) : s * ((x + s - 1) / s) < x + s := by
  have h1 := Nat.div_add_mod (x + s - 1) s
  generalize s * ((x + s - 1) / s) = t at h1 ⊢
  omega

lemma align_up_ge (x k : Nat) (hk : k ≤ 64) (hx : x + 2 ^ k - 1 < W) :
    x ≤ align_up x (2 ^ k) := by
  rw [align_up_pow2 x k hk hx]
  exact roundup_ge _ _ (Nat.pos_pow_of_pos k (by omega))

lemma align_up_dvd (x k : Nat) (hk : k ≤ 64) (hx : x + 2 ^ k - 1 < W) :
    2 ^ k ∣ align_up x (2 ^ k) := by
  rw [align_up_pow2 x k hk hx]
  exact ⟨_, rfl⟩

lemma align_up_le_of_dvd (x k m : Nat) (hk : k ≤ 64) (hx : x + 2 ^ k - 1 < W)
    (hd : 2 ^ k ∣ m) (hxm : x ≤ m) : align_up x (2 ^ k) ≤ m := by
  rw [align_up_pow2 x k hk hx]
  obtain ⟨q, hq⟩ := hd
  subst hq
  exact roundup_le_mul _ _ _ (Nat.pos_pow_of_pos k (by omega)) hxm

lemma align_up_lt (x k : Nat) (hk : k ≤ 64) (hx : x + 2 ^ k - 1 < W) :
    align_up x (2 ^ k) < x + 2 ^ k := by
  rw [align_up_pow2 x k hk hx]
  exact roundup_lt _ _ (Nat.pos_pow_of_pos k (by omega))

/-- Any value lands to zero against its own 64-bit complement; in
particular `align_up 0 a = 0` for every `a`. -/
lemma land_compl_self (n : Nat) (hn : n < W) : n &&& ((W - 1) ^^^ n) = 0 := by
  apply Nat.eq_of_testBit_eq
  intro i
  rw [Nat.testBit_and, Nat.testBit_xor, W, Nat.testBit_two_pow_sub_one]
  rcases Nat.lt_or_ge i 64 with hi | hi
  · cases h : n.testBit i <;> simp [h, hi]
  · have hn' : n < 2 ^ 64 := by simpa [W] using hn
    have hni : n.testBit i = false := by
      apply Nat.testBit_lt_two_pow
      exact Nat.lt_of_lt_of_le hn' (Nat.pow_le_pow_right (by omega) hi)
    simp [hni]

lemma align_up_zero (a : Nat) : align_up 0 a = 0 := by
  unfold align_up
  have h1 : (a + (W - 1)) % W < W := by
    apply Nat.mod_lt
    rw [W_eq]; omega
  rw [Nat.zero_add, Nat.mod_eq_of_lt h1]
  exact land_compl_self _ h1

/-! ## Characterisation of a single `arena_alloc` call -/

/-- `arena_alloc` fails exactly on out-of-space or a failed commit call. -/
lemma alloc_none_iff (ok : Bool) (a : Arena) (s : Nat) :
    (arena_alloc ok a s).1 = none ↔
      (a.limit < a.cursor + align_up s 8 ∨
       (a.commit < a.cursor + align_up s 8 ∧ ok = false)) := by
  unfold arena_alloc
  by_cases hlim : a.limit < a.cursor + align_up s 8
  · simp [hlim]
  · by_cases hcom : a.commit < a.cursor + align_up s 8 <;>
      cases ok <;> simp [hlim, hcom]

/-- A failed `arena_alloc` leaves the arena untouched. -/
lemma alloc_none_frame (ok : Bool) (a : Arena) (s : Nat)
    (h : (arena_alloc ok a s).1 = none) : (arena_alloc ok a s).2.1 = a := by
  unfold arena_alloc at h ⊢
  by_cases hlim : a.limit < a.cursor + align_up s 8
  · simp [hlim]
  · rw [if_neg hlim] at h ⊢
    by_cases hcom : a.commit < a.cursor + align_up s 8
    · rw [if_pos hcom] at h ⊢
      cases ok
      · simp
      · simp at h
    · rw [if_neg hcom] at h ⊢
      simp at h

/-- On out-of-space, `arena_alloc` makes no OS call at all. -/
lemma alloc_oospace (ok : Bool) (a : Arena) (s : Nat)
    (h : a.limit < a.cursor + align_up s 8) :
    arena_alloc ok a s = (none, a, []) := by
  unfold arena_alloc
  simp [h]

/-- A successful `arena_alloc` returns the old cursor, bumps the cursor by
the aligned size, and leaves `base`, `limit`, `reserve_size`, `commit_step`
untouched. -/
lemma alloc_some (ok : Bool) (a : Arena) (s p : Nat)
    (h : (arena_alloc ok a s).1 = some p) :
    p = a.cursor ∧
    (arena_alloc ok a s).2.1.cursor = a.cursor + align_up s 8 ∧
    (arena_alloc ok a s).2.1.base = a.base ∧
    (arena_alloc ok a s).2.1.limit = a.limit ∧
    (arena_alloc ok a s).2.1.reserve_size = a.reserve_size ∧
    (arena_alloc ok a s).2.1.commit_step = a.commit_step := by
  unfold arena_alloc at h ⊢
  by_cases hlim : a.limit < a.cursor + align_up s 8
  · simp [hlim] at h
  · rw [if_neg hlim] at h ⊢
    by_cases hcom : a.commit < a.cursor + align_up s 8
    · rw [if_pos hcom] at h ⊢
      cases ok
      · simp at h
      · simp_all
    · rw [if_neg hcom] at h ⊢
      simp_all

/-- When the request fits under the committed boundary, `arena_alloc`
issues no OS call (and only the cursor moves). -/
lemma alloc_under_commit (ok : Bool) (a : Arena) (s : Nat)
    (h : a.cursor + align_up s 8 ≤ a.commit) :
    (arena_alloc ok a s).2.2 = [] := by
  unfold arena_alloc
  have hcom : ¬ (a.commit < a.cursor + align_up s 8) := by omega
  by_cases hlim : a.limit < a.cursor + align_up s 8 <;> simp [hlim, hcom]

/-! ## The reachable-state invariant -/

/-- Invariant of reachable arena states, for a power-of-two `commit_step`
dividing `reserve_size` (with headroom so that the commit-growth
computation cannot wrap in `size_t`). -/
def Good (a : Arena) : Prop :=
  a.base ≤ a.cursor ∧ a.cursor ≤ a.commit ∧ a.commit ≤ a.limit ∧
  a.limit = a.base + a.reserve_size ∧
  (∃ k, k ≤ 64 ∧ a.commit_step = 2 ^ k) ∧
  a.commit_step ∣ a.reserve_size ∧
  a.commit_step ∣ (a.commit - a.base) ∧
  a.reserve_size + a.commit_step ≤ W

lemma inv_of_good (a : Arena) (h : Good a) : Inv a :=
  ⟨h.1, h.2.1, h.2.2.1⟩

/-- `arena_reset` preserves the reachable-state invariant. -/
lemma good_reset (a : Arena) (h : Good a) : Good (arena_reset a) := by
  obtain ⟨h1, h2, h3, h4, h5, h6, h7, h8⟩ := h
  exact ⟨Nat.le_refl _, Nat.le_trans h1 h2, h3, h4, h5, h6, h7, h8⟩

/-- `arena_alloc` preserves the reachable-state invariant, whether it
succeeds or fails. -/
lemma good_alloc (ok : Bool) (a : Arena) (s : Nat) (h : Good a) :
    Good ((arena_alloc ok a s).2.1) := by
  obtain ⟨h1, h2, h3, h4, ⟨k, hk, hcs⟩, h6, h7, h8⟩ := h
  by_cases hlim : a.limit < a.cursor + align_up s 8
  · rw [alloc_oospace ok a s hlim]
    exact ⟨h1, h2, h3, h4, ⟨k, hk, hcs⟩, h6, h7, h8⟩
  · by_cases hcom : a.commit < a.cursor + align_up s 8
    · cases ok
      · have hfr : (arena_alloc false a s).2.1 = a := by
          unfold arena_alloc; simp [hlim, hcom]
        rw [hfr]
        exact ⟨h1, h2, h3, h4, ⟨k, hk, hcs⟩, h6, h7, h8⟩
      · set x := a.cursor + align_up s 8 - a.commit with hxdef
        have harena : (arena_alloc true a s).2.1 =
            { a with commit := a.commit + align_up x a.commit_step,
                     cursor := a.cursor + align_up s 8 } := by
          unfold arena_alloc; simp [hlim, hcom]
        have hp : 0 < 2 ^ k := Nat.pos_pow_of_pos k (by omega)
        have hW : x + 2 ^ k - 1 < W := by omega
        have hneed_ge : x ≤ align_up x a.commit_step := by
          rw [hcs]; exact align_up_ge x k hk hW
        have hneed_dvd : a.commit_step ∣ align_up x a.commit_step := by
          conv_rhs => rw [hcs]
          rw [hcs]; exact align_up_dvd x k hk hW
        have hrem_dvd : a.commit_step ∣ (a.limit - a.commit) := by
          have hrw : a.limit - a.commit =
              a.reserve_size - (a.commit - a.base) := by omega
          rw [hrw]
          exact Nat.dvd_sub' h6 h7
        have hneed_le : align_up x a.commit_step ≤ a.limit - a.commit := by
          rw [hcs]
          exact align_up_le_of_dvd x k _ hk hW (hcs ▸ hrem_dvd) (by omega)
        rw [harena]
        refine ⟨by simp; omega, by simp; omega, by simp; omega, by simp [h4],
          ⟨k, hk, by simp [hcs]⟩, by simp [h6], ?_, by simp [h8]⟩
        have hrw2 : a.commit + align_up x a.commit_step - a.base =
            (a.commit - a.base) + align_up x a.commit_step := by omega
        simp only [hrw2]
        exact Nat.dvd_add h7 hneed_dvd
    · have harena : (arena_alloc ok a s).2.1 =
          { a with cursor := a.cursor + align_up s 8 } := by
        unfold arena_alloc; simp [hlim, hcom]
      rw [harena]
      exact ⟨by simp; omega, by simp; omega, by simp; omega, by simp [h4],
        ⟨k, hk, by simp [hcs]⟩, by simp [h6], by simp [h7], by simp [h8]⟩

/-- `arena_init` establishes the reachable-state invariant whenever the
page-rounded `commit_step` is a power of two dividing the page-rounded
`reserve_size`, with `size_t` headroom. -/
lemma good_init (a0 : Arena) (page m rs cs k : Nat)
    (hk : k ≤ 64) (hcs : align_up cs page = 2 ^ k)
    (hdvd : align_up cs page ∣ align_up rs page)
    (hroom : align_up rs page + align_up cs page ≤ W) :
    Good ((arena_init a0 page (some m) rs cs).1) := by
  unfold arena_init
  simp only
  exact ⟨Nat.le_refl _, Nat.le_refl _, Nat.le_add_right _ _, rfl,
    ⟨k, hk, hcs⟩, hdvd, by simp, hroom⟩

/-! ## Sequences of allocations -/

/-- The aligned sizes `align_up s_i 8` of a request sequence. -/
def alignedSizes (l : List (Nat × Bool)) : List Nat :=
  l.map (fun p => align_up p.1 8)

lemma sum_take_mono (xs : List Nat) (i j : Nat) (hij : i ≤ j) :
    (xs.take i).sum ≤ (xs.take j).sum := by
  obtain ⟨d, rfl⟩ : ∃ d, j = i + d := ⟨j - i, by omega⟩
  rw [List.take_add, List.sum_append]
  omega

lemma sum_take_succ (xs : List Nat) (i : Nat) (hi : i < xs.length) :
    (xs.take (i + 1)).sum = (xs.take i).sum + xs.getD i 0 := by
  rw [List.take_succ, List.sum_append]
  have h1 : xs[i]? = some xs[i] := List.getElem?_eq_getElem hi
  rw [h1]
  simp [h1]

/-- Structure of a fully successful allocation run: the cursor advances by
the sum of the aligned sizes, the base is untouched, and the `i`-th
returned address sits at the sum of the first `i` aligned sizes past the
starting cursor. -/
lemma allocSeq_spec (l : List (Nat × Bool)) :
    ∀ a ps a', allocSeq a l = some (ps, a') →
      a'.cursor = a.cursor + (alignedSizes l).sum ∧
      a'.base = a.base ∧
      a'.limit = a.limit ∧
      ps.length = l.length ∧
      ∀ i, i < l.length →
        ps.getD i 0 = a.cursor + ((alignedSizes l).take i).sum := by
  induction l with
  | nil =>
    intro a ps a' h
    simp only [allocSeq] at h
    obtain ⟨h1, h2⟩ := Prod.mk.injEq .. ▸ (Option.some.injEq .. ▸ h)
    subst h1; subst h2
    simp [alignedSizes]
  | cons hd tl ih =>
    intro a ps a' h
    obtain ⟨s, ok⟩ := hd
    unfold allocSeq at h
    rcases hall : arena_alloc ok a s with ⟨o, a1, ev⟩
    rw [hall] at h
    cases o with
    | none => simp at h
    | some p =>
      simp only [Option.map_eq_some'] at h
      obtain ⟨⟨ps', a''⟩, htl, heq⟩ := h
      have hps : ps = p :: ps' := by
        have := congrArg Prod.fst heq; simpa using this.symm
      have ha' : a' = a'' := by
        have := congrArg Prod.snd heq; simpa using this.symm
      subst hps; subst ha'
      have hsome : (arena_alloc ok a s).1 = some p := by rw [hall]
      obtain ⟨hp, hcur, hbase, hlimeq, _, _⟩ := alloc_some ok a s p hsome
      have hst : (arena_alloc ok a s).2.1 = a1 := by rw [hall]
      rw [hst] at hcur hbase hlimeq
      obtain ⟨ih1, ih2, ihl, ih3, ih4⟩ := ih a1 ps' _ htl
      have hsz : alignedSizes ((s, ok) :: tl) =
          align_up s 8 :: alignedSizes tl := rfl
      refine ⟨?_, ?_, ?_, ?_, ?_⟩
      · rw [ih1, hcur, hsz]; simp [Nat.add_assoc]
      · rw [ih2, hbase]
      · rw [ihl, hlimeq]
      · simp [ih3]
      · intro i hi
        cases i with
        | zero => simp [hp]
        | succ i =>
          have hi' : i < tl.length := by simpa using hi
          have h0 := ih4 i hi'
          rw [List.getD_cons_succ, h0, hcur, hsz]
          simp [List.take_succ_cons, Nat.add_assoc]

/-- Successive allocations do not overlap: each returned address plus its
aligned size stays at or below every later returned address. -/
lemma allocSeq_no_overlap (l : List (Nat × Bool)) (a : Arena)
    (ps : List Nat) (a' : Arena) (h : allocSeq a l = some (ps, a'))
    (i j : Nat) (hij : i < j) (hj : j < l.length) :
    ps.getD i 0 + (alignedSizes l).getD i 0 ≤ ps.getD j 0 := by
  obtain ⟨_, _, _, _, h4⟩ := allocSeq_spec l a ps a' h
  have hi : i < l.length := Nat.lt_trans hij hj
  have hlen : (alignedSizes l).length = l.length := by simp [alignedSizes]
  rw [h4 i hi, h4 j hj]
  have hstep := sum_take_succ (alignedSizes l) i (by omega)
  have hmono := sum_take_mono (alignedSizes l) (i + 1) j (by omega)
  omega

/-- A zero-size allocation on an arena whose cursor is under both `commit`
and `limit` succeeds, returns the cursor, and changes nothing. -/
lemma alloc_zero (ok : Bool) (a : Arena) (h1 : a.cursor ≤ a.commit)
    (h2 : a.cursor ≤ a.limit) :
    arena_alloc ok a 0 = (some a.cursor, a, []) := by
  have h0 : align_up 0 8 = 0 := by decide
  unfold arena_alloc
  rw [h0]
  have hlim : ¬ a.limit < a.cursor + 0 := by omega
  have hcom : ¬ a.commit < a.cursor + 0 := by omega
  rw [if_neg hlim, if_neg hcom]
  have ha : ({ a with cursor := a.cursor + 0 } : Arena) = a := by
    cases a; simp
  rw [ha]

/-! ## Repeated fixed-size allocations -/

lemma align_up_eq_self (x k : Nat) (hk : k ≤ 64) (hx : x + 2 ^ k - 1 < W)
    (hd : 2 ^ k ∣ x) : align_up x (2 ^ k) = x :=
  Nat.le_antisymm (align_up_le_of_dvd x k x hk hx hd (Nat.le_refl x))
    (align_up_ge x k hk hx)

lemma allocSeq_cons (a : Arena) (s : Nat) (ok : Bool) (l : List (Nat × Bool)) :
    allocSeq a ((s, ok) :: l) =
      match (arena_alloc ok a s).1 with
      | some p =>
        (allocSeq (arena_alloc ok a s).2.1 l).map (fun r => (p :: r.1, r.2))
      | none => none := by
  show (match arena_alloc ok a s with
    | (some p, a', _) =>
      (allocSeq a' l).map (fun r : List Nat × Arena => (p :: r.1, r.2))
    | (none, _, _) => none) = _
  rcases hall : arena_alloc ok a s with ⟨o, a1, ev⟩
  cases o <;> rfl

/-- A 64-byte allocation that fits under `limit` always succeeds when the
OS grants the commit. -/
lemma alloc64_succeeds (a : Arena) (h : a.cursor + 64 ≤ a.limit) :
    (arena_alloc true a 64).1 = some a.cursor := by
  unfold arena_alloc
  have h64 : align_up 64 8 = 64 := by decide
  rw [h64]
  have hlim : ¬ a.limit < a.cursor + 64 := by omega
  rw [if_neg hlim]
  by_cases hcom : a.commit < a.cursor + 64
  · rw [if_pos hcom]; simp
  · rw [if_neg hcom]

/-- As long as they fit under `limit`, repeated `arena_alloc 64` calls all
succeed (the OS answering every commit call positively). -/
lemma allocSeq_replicate64 : ∀ (k : Nat) (a : Arena),
    a.cursor + 64 * k ≤ a.limit →
    ∃ ps a', allocSeq a (List.replicate k (64, true)) = some (ps, a') := by
  intro k
  induction k with
  | zero => intro a _; exact ⟨[], a, rfl⟩
  | succ k ih =>
    intro a h
    have h1 : a.cursor + 64 ≤ a.limit := by omega
    have hsome := alloc64_succeeds a h1
    obtain ⟨_, hcur, _, hlim', _, _⟩ := alloc_some true a 64 a.cursor hsome
    have h64 : align_up 64 8 = 64 := by decide
    have h2 : (arena_alloc true a 64).2.1.cursor + 64 * k ≤
        (arena_alloc true a 64).2.1.limit := by
      rw [hcur, hlim', h64]; omega
    obtain ⟨ps, a', hps⟩ := ih _ h2
    refine ⟨a.cursor :: ps, a', ?_⟩
    have hrep : List.replicate (k + 1) ((64 : Nat), true) =
        (64, true) :: List.replicate k (64, true) := rfl
    rw [hrep, allocSeq_cons, hsome, hps]
    rfl

/-! ## Concrete arenas used as witnesses and counterexamples -/

/-- An arbitrary pre-`arena_init` struct (the C code never reads it). -/
def dummyArena : Arena := ⟨0, 0, 0, 0, 0, 0⟩

/-- The arena produced by `arena_init` with page size 4096, reservation at
address 0, `reserve_size = 4096` and `commit_step = 4096`. -/
def arenaA : Arena :=
  { base := 4096, cursor := 4096, commit := 4096, limit := 8192,
    reserve_size := 4096, commit_step := 4096 }

/-- `arenaA` after `arena_alloc 8` and `arena_alloc 64`. -/
def arenaA2 : Arena :=
  { base := 4096, cursor := 4168, commit := 8192, limit := 8192,
    reserve_size := 4096, commit_step := 4096 }

/-- An arena with no room left: `cursor = limit` (page 4096, zero usable
bytes reserved). -/
def arenaFull : Arena :=
  { base := 4096, cursor := 4096, commit := 4096, limit := 4096,
    reserve_size := 0, commit_step := 4096 }

/-! ## Claim theorems -/

/-- C1: for every sequence of successful `arena_alloc` calls with sizes
`s_1..s_k` since the last `arena_reset`/`arena_init` (cursor at `base`),
the cursor displacement from `base` equals `Σ align_up(s_i, 8)`, the
`i`-th returned pointer equals `base + Σ_{j<i} align_up(s_j, 8)`, and
hence no two allocations of the run overlap. -/
theorem c1_alloc_sequence_layout (l : List (Nat × Bool)) (a : Arena)
    (ps : List Nat) (a' : Arena) (hstart : a.cursor = a.base)
    (h : allocSeq a l = some (ps, a')) :
    a'.cursor - a'.base = (alignedSizes l).sum ∧
    (∀ i, i < l.length →
      ps.getD i 0 = a.base + ((alignedSizes l).take i).sum) ∧
    (∀ i j, i < j → j < l.length →
      ps.getD i 0 + (alignedSizes l).getD i 0 ≤ ps.getD j 0) := by
  obtain ⟨h1, h2, _, h3, h4⟩ := allocSeq_spec l a ps a' h
  refine ⟨by rw [h1, h2, hstart]; omega, ?_, ?_⟩
  · intro i hi
    rw [h4 i hi, hstart]
  · intro i j hij hj
    exact allocSeq_no_overlap l a ps a' h i j hij hj

theorem c1_alloc_sequence_layout_witness :
    arenaA.cursor = arenaA.base ∧
    allocSeq arenaA [(8, true), (64, true)] = some ([4096, 4104], arenaA2) ∧
    arenaA2.cursor - arenaA2.base = (alignedSizes [(8, true), (64, true)]).sum :=
  ⟨rfl, by decide,
   (c1_alloc_sequence_layout [(8, true), (64, true)] arenaA [4096, 4104]
     arenaA2 rfl (by decide)).1⟩

/-- C3: `arena_alloc` fails (returns null) exactly when the aligned
candidate exceeds `limit` or the needed OS commit call fails; every
failure leaves the `Arena` completely unchanged, and the out-of-space
failure issues no OS call. -/
theorem c3_alloc_failure (ok : Bool) (a : Arena) (s : Nat) :
    ((arena_alloc ok a s).1 = none ↔
      (a.limit < a.cursor + align_up s 8 ∨
       (a.commit < a.cursor + align_up s 8 ∧ ok = false))) ∧
    ((arena_alloc ok a s).1 = none → (arena_alloc ok a s).2.1 = a) ∧
    (a.limit < a.cursor + align_up s 8 → arena_alloc ok a s = (none, a, [])) :=
  ⟨alloc_none_iff ok a s, alloc_none_frame ok a s, alloc_oospace ok a s⟩

theorem c3_alloc_failure_witness :
    arenaFull.limit < arenaFull.cursor + align_up 8 8 ∧
    arena_alloc true arenaFull 8 = (none, arenaFull, []) :=
  ⟨by decide, (c3_alloc_failure true arenaFull 8).2.2 (by decide)⟩

/-- C6: `arena_reset` sets `cursor = base` and changes nothing else, and a
subsequent `arena_alloc` whose candidate stays at or below the previously
reached `commit` boundary issues no OS commit call. -/
theorem c6_reset_frame (a : Arena) :
    arena_reset a = { a with cursor := a.base } ∧
    (arena_reset a).cursor = a.base ∧
    (arena_reset a).commit = a.commit ∧
    (arena_reset a).limit = a.limit ∧
    (arena_reset a).base = a.base ∧
    (arena_reset a).reserve_size = a.reserve_size ∧
    (arena_reset a).commit_step = a.commit_step ∧
    (∀ ok s, (arena_reset a).cursor + align_up s 8 ≤ a.commit →
      (arena_alloc ok (arena_reset a) s).2.2 = []) :=
  ⟨rfl, rfl, rfl, rfl, rfl, rfl, rfl,
   fun ok s h => alloc_under_commit ok (arena_reset a) s h⟩

theorem c6_reset_frame_witness :
    (arena_reset arenaA2).cursor + align_up 8 8 ≤ arenaA2.commit ∧
    (arena_alloc true (arena_reset arenaA2) 8).2.2 = [] :=
  ⟨by decide, (c6_reset_frame arenaA2).2.2.2.2.2.2.2 true 8 (by decide)⟩

/-- C7: on an arena satisfying the ordering invariant, `arena_alloc` with
`size = 0` succeeds (since `align_up 0 8 = 0`), returns the current cursor
without advancing it, makes no OS call, and a repeated zero-size
allocation returns the very same address. -/
theorem c7_zero_size (ok ok2 : Bool) (a : Arena) (h : Inv a) :
    align_up 0 8 = 0 ∧
    arena_alloc ok a 0 = (some a.cursor, a, []) ∧
    arena_alloc ok2 (arena_alloc ok a 0).2.1 0 = (some a.cursor, a, []) := by
  obtain ⟨h1, h2, h3⟩ := h
  have key : ∀ okk : Bool, arena_alloc okk a 0 = (some a.cursor, a, []) :=
    fun okk => alloc_zero okk a h2 (Nat.le_trans h2 h3)
  have hst : (arena_alloc ok a 0).2.1 = a := by rw [key ok]
  exact ⟨by decide, key ok, by rw [hst, key ok2]⟩

theorem c7_zero_size_witness :
    Inv arenaA ∧ arena_alloc true arenaA 0 = (some arenaA.cursor, arenaA, []) :=
  ⟨by decide, (c7_zero_size true false arenaA (by decide)).2.1⟩

/-- C2 counterexample: `arena_init` accepts `reserve_size = 4096` with
`commit_step = 8192` (both page-rounded values unchanged), yet the very
first `arena_alloc 8` commits a full 8192-byte step past `limit`, breaking
`commit ≤ limit`: the invariant is not preserved for all accepted
arguments. -/
theorem c2_inv_counterexample :
    (arena_init dummyArena 4096 (some 0) 4096 8192).2.1 = true ∧
    (arena_init dummyArena 4096 (some 0) 4096 8192).1 =
      { base := 4096, cursor := 4096, commit := 4096, limit := 8192,
        reserve_size := 4096, commit_step := 8192 } ∧
    Inv (arena_init dummyArena 4096 (some 0) 4096 8192).1 ∧
    (arena_alloc true (arena_init dummyArena 4096 (some 0) 4096 8192).1 8).1 =
      some 4096 ∧
    (arena_alloc true (arena_init dummyArena 4096 (some 0) 4096 8192).1
        8).2.1.commit = 12288 ∧
    (arena_alloc true (arena_init dummyArena 4096 (some 0) 4096 8192).1
        8).2.1.limit = 8192 ∧
    ¬ Inv (arena_alloc true
        (arena_init dummyArena 4096 (some 0) 4096 8192).1 8).2.1 := by
  decide

/-- C2 (amended): `base ≤ cursor ≤ commit ≤ limit` is established by
`arena_init` and preserved by every `arena_alloc` (successful or failed)
and every `arena_reset`, provided the page-rounded `commit_step` is a
power of two dividing the page-rounded `reserve_size` (with `size_t`
headroom `reserve_size + commit_step ≤ 2^64`); the invariant `Good`
packages these side conditions with the ordering chain. -/
theorem c2_inv_amended :
    (∀ (a0 : Arena) (page m rs cs k : Nat), k ≤ 64 →
      align_up cs page = 2 ^ k →
      align_up cs page ∣ align_up rs page →
      align_up rs page + align_up cs page ≤ W →
      Good ((arena_init a0 page (some m) rs cs).1)) ∧
    (∀ (ok : Bool) (a : Arena) (s : Nat), Good a →
      Good ((arena_alloc ok a s).2.1)) ∧
    (∀ a : Arena, Good a → Good (arena_reset a)) ∧
    (∀ a : Arena, Good a → Inv a) :=
  ⟨fun a0 page m rs cs k hk h1 h2 h3 => good_init a0 page m rs cs k hk h1 h2 h3,
   good_alloc, good_reset, inv_of_good⟩

theorem c2_inv_amended_witness :
    Good ((arena_init dummyArena 4096 (some 0) 65536 4096).1) ∧
    Inv ((arena_alloc true (arena_init dummyArena 4096 (some 0) 65536 4096).1
      8).2.1) := by
  have hg : Good ((arena_init dummyArena 4096 (some 0) 65536 4096).1) :=
    c2_inv_amended.1 dummyArena 4096 0 65536 4096 12 (by omega) (by decide)
      (by decide) (by rw [W_eq]; decide)
  exact ⟨hg, c2_inv_amended.2.2.2 _ (c2_inv_amended.2.1 true _ 8 hg)⟩

/-- C4 counterexample: `arena_init` accepts `commit_step = 12288` (three
pages, not a power of two); `align_up(8, 12288) = 4096`, so after one
allocation `commit - base = 4096`, which is not a multiple of 12288: the
growth is not a whole number of `commit_step` units for every accepted
`commit_step`. -/
theorem c4_commit_multiple_counterexample :
    (arena_init dummyArena 4096 (some 0) 12288 12288).2.1 = true ∧
    (arena_init dummyArena 4096 (some 0) 12288 12288).1.commit_step =
      12288 ∧
    align_up 8 12288 = 4096 ∧
    (arena_alloc true (arena_init dummyArena 4096 (some 0) 12288 12288).1
        8).1 = some 4096 ∧
    (arena_alloc true (arena_init dummyArena 4096 (some 0) 12288 12288).1
        8).2.1.commit -
      (arena_alloc true (arena_init dummyArena 4096 (some 0) 12288 12288).1
        8).2.1.base = 4096 ∧
    ¬ ((arena_alloc true (arena_init dummyArena 4096 (some 0) 12288 12288).1
        8).2.1.commit_step ∣
      ((arena_alloc true (arena_init dummyArena 4096 (some 0) 12288 12288).1
        8).2.1.commit -
       (arena_alloc true (arena_init dummyArena 4096 (some 0) 12288 12288).1
        8).2.1.base)) := by
  decide

/-- Preservation of "`commit - base` is a multiple of `commit_step`" by a
single `arena_alloc`, for a power-of-two step with address headroom. -/
lemma commit_multiple_alloc (ok : Bool) (a : Arena) (s k : Nat)
    (hk : k ≤ 64) (hcs : a.commit_step = 2 ^ k)
    (hw : a.limit + a.commit_step ≤ W) (hbc : a.base ≤ a.commit)
    (hd : a.commit_step ∣ (a.commit - a.base)) :
    a.commit_step ∣
      ((arena_alloc ok a s).2.1.commit - (arena_alloc ok a s).2.1.base) := by
  by_cases hlim : a.limit < a.cursor + align_up s 8
  · rw [alloc_oospace ok a s hlim]
    exact hd
  · by_cases hcom : a.commit < a.cursor + align_up s 8
    · cases ok
      · have hfr : (arena_alloc false a s).2.1 = a := by
          unfold arena_alloc
          simp [hlim, hcom]
        rw [hfr]
        exact hd
      · set x := a.cursor + align_up s 8 - a.commit with hxdef
        have harena : (arena_alloc true a s).2.1 =
            { a with commit := a.commit + align_up x a.commit_step,
                     cursor := a.cursor + align_up s 8 } := by
          unfold arena_alloc
          simp [hlim, hcom]
        have hp : 0 < 2 ^ k := Nat.pos_pow_of_pos k (by omega)
        have hW : x + 2 ^ k - 1 < W := by omega
        have hneed_dvd : a.commit_step ∣ align_up x a.commit_step := by
          rw [hcs]
          exact align_up_dvd x k hk hW
        rw [harena]
        have hrw : a.commit + align_up x a.commit_step - a.base =
            (a.commit - a.base) + align_up x a.commit_step := by omega
        simp only [hrw]
        exact Nat.dvd_add hd hneed_dvd
    · have harena : (arena_alloc ok a s).2.1 =
          { a with cursor := a.cursor + align_up s 8 } := by
        unfold arena_alloc
        simp [hlim, hcom]
      rw [harena]
      exact hd

/-- C4 (amended): `commit - base` is a multiple of `commit_step` at every
observable point — established by `arena_init` (where it is `0`),
preserved by `arena_reset`, and preserved by every `arena_alloc` provided
the recorded `commit_step` is a power of two (with address headroom
`limit + commit_step ≤ 2^64`); for a non-power-of-two accepted
`commit_step` the property fails. -/
theorem c4_commit_multiple_amended :
    (∀ (a0 : Arena) (page m rs cs : Nat),
      (arena_init a0 page (some m) rs cs).1.commit_step ∣
        ((arena_init a0 page (some m) rs cs).1.commit -
         (arena_init a0 page (some m) rs cs).1.base)) ∧
    (∀ a : Arena, a.commit_step ∣ (a.commit - a.base) →
      (arena_reset a).commit_step ∣
        ((arena_reset a).commit - (arena_reset a).base)) ∧
    (∀ (ok : Bool) (a : Arena) (s k : Nat), k ≤ 64 →
      a.commit_step = 2 ^ k → a.limit + a.commit_step ≤ W →
      a.base ≤ a.commit → a.commit_step ∣ (a.commit - a.base) →
      a.commit_step ∣
        ((arena_alloc ok a s).2.1.commit - (arena_alloc ok a s).2.1.base)) :=
  ⟨fun a0 page m rs cs => by unfold arena_init; simp,
   fun a h => h,
   fun ok a s k hk hcs hw hbc hd => commit_multiple_alloc ok a s k hk hcs hw hbc hd⟩

theorem c4_commit_multiple_amended_witness :
    arenaA.commit_step ∣
      ((arena_alloc true arenaA 8).2.1.commit -
       (arena_alloc true arenaA 8).2.1.base) :=
  c4_commit_multiple_amended.2.2 true arenaA 8 12 (by omega) (by decide)
    (by rw [W_eq]; decide) (by decide) (by decide)

/-- C5: `arena_init` rounds both requested sizes up to the OS page size
(a power of two), and on success sets `cursor = commit = base`,
`limit = base + reserve_size` with zero bytes committed (no commit event
in the OS trace) and records the rounded sizes; on reservation failure it
returns immediately with no further OS call and no mutation of the
struct. -/
theorem c5_init_behaviour (a0 : Arena) (page m rs cs k : Nat)
    (hp : page = 2 ^ k) (hk : k ≤ 64) (hrs : rs + page ≤ W)
    (hcs : cs + page ≤ W) :
    arena_init a0 page none rs cs =
      (a0, false, [OsEvent.reserve (align_up rs page + page * 2)]) ∧
    (arena_init a0 page (some m) rs cs).1 =
      { base := m + page, cursor := m + page, commit := m + page,
        limit := m + page + align_up rs page,
        reserve_size := align_up rs page, commit_step := align_up cs page } ∧
    (arena_init a0 page (some m) rs cs).2.2 =
      [OsEvent.reserve (align_up rs page + page * 2), OsEvent.guard m page,
       OsEvent.guard (m + page + align_up rs page) page] ∧
    rs ≤ align_up rs page ∧ page ∣ align_up rs page ∧
    align_up rs page < rs + page ∧
    cs ≤ align_up cs page ∧ page ∣ align_up cs page ∧
    align_up cs page < cs + page := by
  subst hp
  have hp2 : 0 < 2 ^ k := Nat.pos_pow_of_pos k (by omega)
  have hxrs : rs + 2 ^ k - 1 < W := by omega
  have hxcs : cs + 2 ^ k - 1 < W := by omega
  exact ⟨rfl, rfl, rfl, align_up_ge rs k hk hxrs, align_up_dvd rs k hk hxrs,
    align_up_lt rs k hk hxrs, align_up_ge cs k hk hxcs,
    align_up_dvd cs k hk hxcs, align_up_lt cs k hk hxcs⟩

theorem c5_init_behaviour_witness :
    arena_init dummyArena 4096 none 1000 100 =
      (dummyArena, false, [OsEvent.reserve (align_up 1000 4096 + 4096 * 2)]) ∧
    1000 ≤ align_up 1000 4096 :=
  ⟨(c5_init_behaviour dummyArena 4096 0 1000 100 12 (by norm_num) (by omega)
      (by rw [W_eq]; omega) (by rw [W_eq]; omega)).1,
   (c5_init_behaviour dummyArena 4096 0 1000 100 12 (by norm_num) (by omega)
      (by rw [W_eq]; omega) (by rw [W_eq]; omega)).2.2.2.1⟩

/-- C9: `arena_alloc` performs no overflow check: for any size above
`SIZE_MAX - 7` the `size_t` computation `align_up size 8` wraps to `0`,
so on an arena satisfying the ordering invariant (with addresses below
`2^64 - 8`) the call succeeds and returns the old cursor unchanged, even
though the requested size exceeds the remaining space `limit - cursor`. -/
theorem c9_overflow_wrap (size : Nat) (ok : Bool) (a : Arena)
    (h1 : W - 8 < size) (h2 : size < W) (hI : Inv a)
    (hlim : a.limit < W - 8) :
    align_up size 8 = 0 ∧
    arena_alloc ok a size = (some a.cursor, a, []) ∧
    a.limit - a.cursor < size := by
  obtain ⟨g1, g2, g3⟩ := hI
  have hWpos : (0:Nat) < W := by rw [W_eq]; omega
  have h0 : align_up size 8 = 0 := by
    unfold align_up
    have hm : ((8 : Nat) + (W - 1)) % W = 7 := by
      have h8 := amask_eq 8 (by omega) (by rw [W_eq]; omega)
      simpa using h8
    rw [hm]
    have hmod : (size + 7) % W = size + 7 - W := by
      rw [Nat.mod_eq_sub_mod (by omega), Nat.mod_eq_of_lt (by omega)]
    rw [hmod]
    have h7 : ((2:Nat) ^ 3 - 1) = 7 := by norm_num
    have hland := land_compl_pow2 (size + 7 - W) 3 (by omega) (by omega)
    rw [h7] at hland
    rw [hland]
    have h8 : (2:Nat) ^ 3 = 8 := by norm_num
    have hsmall : (size + 7 - W) / 2 ^ 3 = 0 :=
      Nat.div_eq_of_lt (by omega)
    rw [hsmall, Nat.mul_zero]
  refine ⟨h0, ?_, by omega⟩
  unfold arena_alloc
  rw [h0]
  have hlim' : ¬ a.limit < a.cursor + 0 := by omega
  have hcom : ¬ a.commit < a.cursor + 0 := by omega
  rw [if_neg hlim', if_neg hcom]
  have ha : ({ a with cursor := a.cursor + 0 } : Arena) = a := by
    cases a; simp
  rw [ha]

theorem c9_overflow_wrap_witness :
    align_up (2 ^ 64 - 1) 8 = 0 ∧
    arena_alloc true arenaA (2 ^ 64 - 1) = (some arenaA.cursor, arenaA, []) ∧
    arenaA.limit - arenaA.cursor < 2 ^ 64 - 1 :=
  c9_overflow_wrap (2 ^ 64 - 1) true arenaA (by rw [W_eq]; norm_num)
    (by rw [W_eq]; norm_num) (by decide) (by rw [W_eq]; decide)

/-- C10: a successful `arena_init` with `reserve_size = 0` rounds the
reservation to `0`, so `limit = base`; afterwards every `arena_alloc`
whose aligned size is positive fails out-of-space leaving the arena
unchanged and issuing no OS call, while `arena_alloc 0` succeeds and
returns `base` without any OS commit call. -/
theorem c10_zero_reserve (a0 : Arena) (page m cs : Nat) (ok ok2 : Bool) :
    (arena_init a0 page (some m) 0 cs).2.1 = true ∧
    (arena_init a0 page (some m) 0 cs).1.reserve_size = 0 ∧
    (arena_init a0 page (some m) 0 cs).1.limit =
      (arena_init a0 page (some m) 0 cs).1.base ∧
    (∀ s, 0 < align_up s 8 →
      arena_alloc ok (arena_init a0 page (some m) 0 cs).1 s =
        (none, (arena_init a0 page (some m) 0 cs).1, [])) ∧
    arena_alloc ok2 (arena_init a0 page (some m) 0 cs).1 0 =
      (some (arena_init a0 page (some m) 0 cs).1.base,
       (arena_init a0 page (some m) 0 cs).1, []) := by
  have hinit : (arena_init a0 page (some m) 0 cs).1 =
      { base := m + page, cursor := m + page, commit := m + page,
        limit := m + page, reserve_size := 0,
        commit_step := align_up cs page } := by
    unfold arena_init
    simp [align_up_zero]
  refine ⟨rfl, by rw [hinit], by rw [hinit], ?_, ?_⟩
  · intro s hs
    rw [hinit]
    apply alloc_oospace
    show m + page < m + page + align_up s 8
    omega
  · rw [hinit]
    exact alloc_zero ok2 _ (Nat.le_refl _) (Nat.le_refl _)

theorem c10_zero_reserve_witness :
    0 < align_up 9 8 ∧
    arena_alloc true (arena_init dummyArena 4096 (some 0) 0 64).1 9 =
      (none, (arena_init dummyArena 4096 (some 0) 0 64).1, []) ∧
    arena_alloc false (arena_init dummyArena 4096 (some 0) 0 64).1 0 =
      (some (arena_init dummyArena 4096 (some 0) 0 64).1.base,
       (arena_init dummyArena 4096 (some 0) 0 64).1, []) :=
  ⟨by decide,
   (c10_zero_reserve dummyArena 4096 0 64 true false).2.2.2.1 9 (by decide),
   (c10_zero_reserve dummyArena 4096 0 64 true false).2.2.2.2⟩

/-- C8: after a successful `arena_init` with `reserve_size = 1 MiB` and
`commit_step = 64 KiB` (the page size `2^p` dividing 64 KiB), 16384
consecutive `arena_alloc 64` calls all succeed, bringing the cursor to
`base + 1 MiB`, and the 16385th `arena_alloc 64` fails out-of-space
leaving the arena (cursor and commit included) unchanged. -/
theorem c8_benchmark_scenario (a0 : Arena) (m p : Nat) (hp : p ≤ 16) :
    (arena_init a0 (2 ^ p) (some m) (2 ^ 20) (2 ^ 16)).2.1 = true ∧
    ∃ ps a',
      allocSeq (arena_init a0 (2 ^ p) (some m) (2 ^ 20) (2 ^ 16)).1
        (List.replicate 16384 (64, true)) = some (ps, a') ∧
      ps.length = 16384 ∧
      a'.cursor =
        (arena_init a0 (2 ^ p) (some m) (2 ^ 20) (2 ^ 16)).1.base + 2 ^ 20 ∧
      arena_alloc true a' 64 = (none, a', []) := by
  have hple : (2:Nat) ^ p ≤ 2 ^ 16 := Nat.pow_le_pow_right (by omega) hp
  have h16 : (2:Nat) ^ 16 = 65536 := by norm_num
  have h20 : (2:Nat) ^ 20 = 1048576 := by norm_num
  have hrs : align_up (2 ^ 20) (2 ^ p) = 2 ^ 20 :=
    align_up_eq_self _ p (by omega)
      (by rw [W_eq]; omega) (pow_dvd_pow 2 (by omega))
  have hcs : align_up (2 ^ 16) (2 ^ p) = 2 ^ 16 :=
    align_up_eq_self _ p (by omega)
      (by rw [W_eq]; omega) (pow_dvd_pow 2 hp)
  have hinit0 : (arena_init a0 (2 ^ p) (some m) (2 ^ 20) (2 ^ 16)).1 =
      { base := m + 2 ^ p, cursor := m + 2 ^ p, commit := m + 2 ^ p,
        limit := m + 2 ^ p + align_up (2 ^ 20) (2 ^ p),
        reserve_size := align_up (2 ^ 20) (2 ^ p),
        commit_step := align_up (2 ^ 16) (2 ^ p) } := rfl
  have hinit : (arena_init a0 (2 ^ p) (some m) (2 ^ 20) (2 ^ 16)).1 =
      { base := m + 2 ^ p, cursor := m + 2 ^ p, commit := m + 2 ^ p,
        limit := m + 2 ^ p + 2 ^ 20, reserve_size := 2 ^ 20,
        commit_step := 2 ^ 16 } := by
    rw [hinit0, hrs, hcs]
  have hfit : (arena_init a0 (2 ^ p) (some m) (2 ^ 20) (2 ^ 16)).1.cursor +
      64 * 16384 ≤ (arena_init a0 (2 ^ p) (some m) (2 ^ 20) (2 ^ 16)).1.limit := by
    rw [hinit]
    show m + 2 ^ p + 64 * 16384 ≤ m + 2 ^ p + 2 ^ 20
    omega
  obtain ⟨ps, a', hrun⟩ := allocSeq_replicate64 16384 _ hfit
  obtain ⟨hc, hb, hl, hlen, _⟩ := allocSeq_spec _ _ _ _ hrun
  have h648 : align_up 64 8 = 64 := by decide
  have hsum : (alignedSizes (List.replicate 16384 (64, true))).sum = 2 ^ 20 := by
    have hmap : alignedSizes (List.replicate 16384 ((64:Nat), true)) =
        List.replicate 16384 64 := by
      simp only [alignedSizes, List.map_replicate, h648]
    rw [hmap, List.sum_const_nat, h20]
  have hcur : a'.cursor =
      (arena_init a0 (2 ^ p) (some m) (2 ^ 20) (2 ^ 16)).1.base + 2 ^ 20 := by
    rw [hc, hsum, hinit]
  refine ⟨rfl, ps, a', hrun, ?_, hcur, ?_⟩
  · rw [hlen]
    exact List.length_replicate 16384 _
  · apply alloc_oospace
    have hl' : a'.limit = m + 2 ^ p + 2 ^ 20 := by
      rw [hl, hinit]
    rw [hl', hcur, hinit]
    show m + 2 ^ p + 2 ^ 20 < m + 2 ^ p + 2 ^ 20 + align_up 64 8
    have h64 : align_up 64 8 = 64 := by decide
    omega

theorem c8_benchmark_scenario_witness :
    (arena_init dummyArena (2 ^ 12) (some 0) (2 ^ 20) (2 ^ 16)).2.1 = true ∧
    ∃ ps a',
      allocSeq (arena_init dummyArena (2 ^ 12) (some 0) (2 ^ 20) (2 ^ 16)).1
        (List.replicate 16384 (64, true)) = some (ps, a') ∧
      ps.length = 16384 ∧
      a'.cursor =
        (arena_init dummyArena (2 ^ 12) (some 0) (2 ^ 20) (2 ^ 16)).1.base +
          2 ^ 20 ∧
      arena_alloc true a' 64 = (none, a', []) :=
  c8_benchmark_scenario dummyArena 0 12 (by omega)

end GigaArena
